import Mathlib

/-!
Verification of the audio_visualizer core (spectral analysis engine and
audio ingestion pipeline) against its specification.

The Rust source is shallowly embedded: machine floats (`f32`) are modelled
as exact rationals (`ℚ`) where the code is purely structural arithmetic,
and as real numbers (`ℝ`) in the spectral analyzer, where square roots,
cosines and real powers appear.  `usize`/`isize` become `ℕ`/`ℤ` with the
same clamping and conversions the code performs.  Fallible code (a Rust
panic) is modelled with `Option`.
-/

namespace AudioViz

/-! ## Bin mapping — `Analyzer::freq_range_to_bin_range` (src/analysis/analyzer.rs)

The function is generic in the ordered field used for the frequency
arithmetic: `ℚ` for executable checks, `ℝ` inside `analyze` where band
edges come from real powers.  The Rust code computes over `f32`, takes
`floor`/`ceil` into `isize`, clamps negatives to zero, converts to
`usize` and then clamps to `[0, half]` exactly as below. -/

def freq_range_to_bin_range (K : Type) [LinearOrderedField K] [FloorRing K]
    (fft_size : ℕ) (sample_rate : ℕ) (f0 f1 : K) : ℕ × ℕ :=
  let sr : K := (sample_rate : K)
  let n : K := (fft_size : K)
  let half : ℕ := fft_size / 2
  let i0 : ℤ := ⌊f0 * n / sr⌋
  let i1 : ℤ := ⌈f1 * n / sr⌉
  let i0 : ℤ := if i0 < 0 then 0 else i0
  let i1 : ℤ := if i1 < 0 then 0 else i1
  let i0 : ℕ := i0.toNat
  let i1 : ℕ := i1.toNat
  let i0 : ℕ := if half ≤ i0 then half - 1 else i0
  let i1 : ℕ := if half < i1 then half else i1
  let i1 : ℕ := if i1 ≤ i0 then min (i0 + 1) half else i1
  (i0, i1)

/-! ## Sliding window buffer — `read_window` (src/audio/mic.rs, src/audio/stream.rs)

`MicCapture::read_window` and `UrlStream::read_window` are the same code:
drain every sample currently in the ring buffer into a `VecDeque` capped
at `size` (evicting the oldest on overflow), then copy the deque into
`out` and pad with zeros up to `size`.  The deque is a `List` (front =
oldest); the drained ring-buffer contents are passed as the list
`pending` (FIFO order).  Sample values are polymorphic: the buffer code
moves `f32`s without arithmetic. -/

/-- One loop iteration of the drain: `window.push_back(s)` then
`if window.len() > size { window.pop_front(); }`. -/
def pushCap {α : Type} (size : ℕ) (w : List α) (s : α) : List α :=
  let w := w ++ [s]
  if size < w.length then w.tail else w

/-- The `while let Some(s) = self.consumer.pop()` drain loop. -/
def drainAll {α : Type} (size : ℕ) (w : List α) (pending : List α) : List α :=
  pending.foldl (pushCap size) w

/-- `read_window`: drain, then `out.clear(); out.extend(window)` and pad
with zeros while `out.len() < size`.  Returns the final contents of
`out`; the new deque state is `drainAll size w pending`. -/
def readWindow {α : Type} (zero : α) (size : ℕ) (w : List α) (pending : List α) : List α :=
  let w := drainAll size w pending
  w ++ List.replicate (size - w.length) zero

/-- The deque as initialised by `MicCapture::start` / `UrlStream::start`:
`VecDeque::from(vec![0.0f32; fft_size])`. -/
def freshWindow (fft_size : ℕ) : List ℚ :=
  List.replicate fft_size 0

/-! ## Streamed playback — `RingSource` (src/audio/stream.rs)

`RingSource` holds the consumer half of the audio ring buffer and the
producer half of the visualization ring buffer.  Ring buffers are
modelled by their current contents (front = next to pop) plus, for the
producer side, the remaining free capacity check `viz.length < vizCap`.
`Iterator::next` pops (substituting `0.0` on empty), best-effort pushes
the same value to the visualization buffer, and always yields `Some`. -/

structure RingSource where
  consumer : List ℚ
  viz : List ℚ
  vizCap : ℕ

/-- `RingSource::next`: `let s = self.consumer.pop().unwrap_or(0.0);
let _ = self.viz_prod.push(s); Some(s)`.  The push fails (and the sample
is dropped) exactly when the visualization buffer is full. -/
def RingSource.next (r : RingSource) : Option ℚ × RingSource :=
  let s : ℚ := r.consumer.headD 0
  let consumer := r.consumer.tail
  let viz := if r.viz.length < r.vizCap then r.viz ++ [s] else r.viz
  (some s, ⟨consumer, viz, r.vizCap⟩)

/-- `n` consecutive `next` calls by the playback engine, collecting the
samples handed to the audio output in order.  A `none` from the iterator
would end playback (rodio semantics); `next` never returns `none`. -/
def RingSource.run (r : RingSource) : ℕ → List ℚ × RingSource
  | 0 => ([], r)
  | n + 1 =>
    match r.next with
    | (some s, r') =>
      let rest := r'.run n
      (s :: rest.1, rest.2)
    | (none, r') => ([], r')

/-! ## WAV loading — `AudioData::load_wav` (src/audio/wav.rs)

The `hound` reader is modelled by the header fields the code inspects
(`WavSpec`) plus the raw interleaved `i16` samples.  `load_wav` rejects
non-integer formats, channel counts other than 1 and 2, and bit depths
other than 16, each with a descriptive error and no partial `AudioData`;
otherwise it scales each sample by `1 / i16::MAX`, groups them into
frames of `channels` samples and downmixes each complete frame to mono. -/

inductive SampleFormat where
  | int : SampleFormat
  | float : SampleFormat
deriving DecidableEq, Repr

structure WavSpec where
  sample_format : SampleFormat
  channels : ℕ
  bits_per_sample : ℕ
  sample_rate : ℕ

structure AudioData where
  sample_rate : ℕ
  samples_mono : List ℚ
  duration_sec : ℚ
deriving DecidableEq, Repr

/-- The frame-accumulation loop: push each scaled sample into `frame`;
when `frame.len() == channels`, downmix (identity for mono, average of
the two channel values for stereo) and clear the frame.  A trailing
incomplete frame produces no output sample. -/
def framesFold (channels : ℕ) (samples : List ℚ) : List ℚ × List ℚ :=
  samples.foldl
    (fun acc s =>
      let frame := acc.2 ++ [s]
      if frame.length = channels then
        let m : ℚ := if channels = 1 then frame.headD 0
          else (frame.headD 0 + frame.getD 1 0) * (1 / 2)
        (acc.1 ++ [m], [])
      else (acc.1, frame))
    ([], [])

def load_wav (spec : WavSpec) (samples : List ℤ) : Except String AudioData :=
  if spec.sample_format ≠ SampleFormat.int then
    Except.error "Only PCM integer WAV supported for now."
  else if spec.channels ≠ 1 ∧ spec.channels ≠ 2 then
    Except.error ("Only mono/stereo WAV supported got(" ++ toString spec.channels
      ++ ") instead.")
  else if spec.bits_per_sample ≠ 16 then
    Except.error ("Only 16-bit PCM WAV supported for now got ("
      ++ toString spec.bits_per_sample ++ "-bit)")
  else
    let mono := (framesFold spec.channels (samples.map (fun s => (s : ℚ) / 32767))).1
    Except.ok ⟨spec.sample_rate, mono, (mono.length : ℚ) / (spec.sample_rate : ℚ)⟩

/-! ## Time-indexed window — `AudioData::window_at_time` (src/audio/wav.rs)

`window_at_time` clears `out`, floors the duration at `0.0001` s, wraps
`t_sec` into `[0, dur)` with `rem_euclid`, locates the centre sample and
copies `n` samples wrapping indices with `rem_euclid(len)`.  When the
file holds zero samples, `len == 0` and the integer `rem_euclid`
panics on its first use; the model returns `none` there. -/

/-- `as isize` on a non-negative `f32` value: truncation toward zero. -/
def ratToInt (q : ℚ) : ℤ :=
  if 0 ≤ q then ⌊q⌋ else -⌊-q⌋

def window_at_time (a : AudioData) (t_sec : ℚ) (n : ℕ) : Option (List ℚ) :=
  let dur : ℚ := max a.duration_sec (1 / 10000)
  let t : ℚ := t_sec - dur * ⌊t_sec / dur⌋
  let center : ℤ := ratToInt (t * (a.sample_rate : ℚ))
  let half : ℤ := (n : ℤ) / 2
  let len : ℤ := (a.samples_mono.length : ℤ)
  if n = 0 then some []
  else if len = 0 then none
  else some ((List.range n).map
    (fun (i : ℕ) =>
      a.samples_mono.getD ((center - half + (i : ℤ)).emod len).toNat 0))

/-! ## Spectral analysis engine — `Analyzer` (src/analysis/analyzer.rs)

The analyzer works over `ℝ`: the Hann window uses `cos`, band edges use
real powers, magnitudes and band values use `sqrt`.  The FFT scratch
buffers (`fft_in`, `fft_out`, `magnitues`) exist in the Rust code only
to avoid per-frame allocation; the model recomputes the same values
functionally.  The forward transform of the `rustfft` crate is the
standard unnormalised DFT `X_k = Σ_j x_j · e^(-2πi·jk/N)`. -/

noncomputable section

/-- `rustfft`'s forward complex transform: the unnormalised DFT. -/
def dft (N : ℕ) (x : ℕ → ℂ) (k : ℕ) : ℂ :=
  ∑ j ∈ Finset.range N, x j *
    Complex.exp (-(2 * Real.pi * Complex.I * (j : ℂ) * (k : ℂ) / (N : ℂ)))

structure AnalysisFrame where
  bands : List ℝ
  bass_fast : ℝ
  bass_smooth : ℝ

structure Analyzer where
  fft_size : ℕ
  bars : ℕ
  f_min : ℝ
  f_max : ℝ
  hann : List ℝ
  smoothed_bands : List ℝ
  bass_fast : ℝ
  bass_smooth : ℝ
  alpha_bands : ℝ
  alpha_bass_slow : ℝ
  alpha_bass_fast : ℝ

/-- `Analyzer::new`: Hann coefficients
`0.5 * (1 - cos(2π n / (fft_size - 1)))`, `f_min = 20`,
`f_max = min(sample_rate / 2, 18000)`, zeroed accumulators, and the
three smoothing coefficients. -/
def Analyzer.new (sample_rate : ℕ) (fft_size : ℕ) (bars : ℕ) : Analyzer where
  fft_size := fft_size
  bars := bars
  f_min := 20
  f_max := min ((sample_rate : ℝ) * 0.5) 18000
  hann := (List.range fft_size).map (fun n =>
    0.5 * (1 - Real.cos (2 * Real.pi * (n : ℝ) / ((fft_size - 1 : ℕ) : ℝ))))
  smoothed_bands := List.replicate bars 0
  bass_fast := 0
  bass_smooth := 0
  alpha_bands := 0.12
  alpha_bass_slow := 0.08
  alpha_bass_fast := 0.30

/-- The normalised magnitude spectrum computed at the top of `analyze`:
windowed input, forward transform, then for `i < fft_size / 2`
`sqrt(re² + im²) * (1 / (fft_size * 0.5))`. -/
def Analyzer.magnitudes (a : Analyzer) (window : List ℝ) (i : ℕ) : ℝ :=
  let c := dft a.fft_size
    (fun j => ((window.getD j 0 * a.hann.getD j 0 : ℝ) : ℂ)) i
  Real.sqrt (c.re * c.re + c.im * c.im) * (1 / ((a.fft_size : ℝ) * 0.5))

/-- The shared sum/count/average/sqrt pattern over the bin range
`[i0, i1)` of a magnitude spectrum (the body of
`bass_energy_from_bins` and of the band loop in `analyze`). -/
def binAvgSqrt (mags : ℕ → ℝ) (p : ℕ × ℕ) : ℝ :=
  let sum : ℝ := ∑ i ∈ Finset.Ico p.1 p.2, mags i
  let count : ℕ := p.2 - p.1
  let avg : ℝ := if 0 < count then sum / (count : ℝ) else 0
  Real.sqrt avg

/-- `Analyzer::bass_energy_from_bins`. -/
def Analyzer.bass_energy_from_bins (a : Analyzer) (mags : ℕ → ℝ)
    (sample_rate : ℕ) (f0 f1 : ℝ) : ℝ :=
  binAvgSqrt mags (freq_range_to_bin_range ℝ a.fft_size sample_rate f0 f1)

/-- The log-frequency band loop of `analyze`: band `b` covers
`f_min * r^(b/bars)` to `f_min * r^((b+1)/bars)` with `r = f_max/f_min`,
and its value is the sum/count/average/sqrt over the mapped bin range. -/
def Analyzer.bandValues (a : Analyzer) (mags : ℕ → ℝ) (sample_rate : ℕ) : List ℝ :=
  let r := a.f_max / a.f_min
  (List.range a.bars).map (fun b =>
    let t0 : ℝ := (b : ℝ) / (a.bars : ℝ)
    let t1 : ℝ := ((b : ℝ) + 1) / (a.bars : ℝ)
    let f0 := a.f_min * r ^ t0
    let f1 := a.f_min * r ^ t1
    binAvgSqrt mags (freq_range_to_bin_range ℝ a.fft_size sample_rate f0 f1))

/-- `Analyzer::analyze`: windowing + transform + magnitudes, bass energy
over 20–120 Hz with fast and slow exponential smoothing, log-frequency
banding with per-band exponential smoothing.  Returns the frame together
with the mutated analyzer state. -/
def Analyzer.analyze (a : Analyzer) (window : List ℝ) (sample_rate : ℕ) :
    AnalysisFrame × Analyzer :=
  let mags := a.magnitudes window
  let bass_raw := a.bass_energy_from_bins mags sample_rate 20 120
  let bass_fast := a.bass_fast + a.alpha_bass_fast * (bass_raw - a.bass_fast)
  let bass_smooth := a.bass_smooth + a.alpha_bass_slow * (bass_raw - a.bass_smooth)
  let bands : List ℝ := a.bandValues mags sample_rate
  let smoothed : List ℝ := (List.range a.bars).map (fun b =>
    a.smoothed_bands.getD b 0 +
      a.alpha_bands * (bands.getD b 0 - a.smoothed_bands.getD b 0))
  (⟨smoothed, bass_fast, bass_smooth⟩,
   { a with smoothed_bands := smoothed, bass_fast := bass_fast,
            bass_smooth := bass_smooth })

/-- One step of feeding the analyzer an all-zero window of its own
transform size (the state part of `analyze`). -/
def Analyzer.silentStep (sample_rate : ℕ) (a : Analyzer) : Analyzer :=
  (a.analyze (List.replicate a.fft_size 0) sample_rate).2

/-- `k` repeated analyses of the all-zero window. -/
def Analyzer.silentIter (a : Analyzer) (sample_rate : ℕ) (k : ℕ) : Analyzer :=
  (Analyzer.silentStep sample_rate)^[k] a

end

/-! ## Theorems -/

/-- C1: for every sample rate in [8000, 192000] and every requested
frequency pair `f0 ≤ f1` within `[0, sample_rate/2]`, with any transform
size of at least 2 (in particular the configured 2048),
`freq_range_to_bin_range` returns `(i0, i1)` with `i0 < i1` and
`i1 ≤ fft_size / 2`, so the loop over `magnitudes[i0..i1]` stays in
range of the `fft_size / 2` magnitude entries and never panics. -/
theorem c1_bin_range_safe (K : Type) [LinearOrderedField K] [FloorRing K]
    (fft_size sample_rate : ℕ) (f0 f1 : K)
    (hsize : 2 ≤ fft_size)
    (_hsr0 : 8000 ≤ sample_rate) (_hsr1 : sample_rate ≤ 192000)
    (_hf0 : 0 ≤ f0) (_hle : f0 ≤ f1) (_hf1 : f1 ≤ (sample_rate : K) / 2) :
    (freq_range_to_bin_range K fft_size sample_rate f0 f1).1 <
      (freq_range_to_bin_range K fft_size sample_rate f0 f1).2 ∧
    (freq_range_to_bin_range K fft_size sample_rate f0 f1).2 ≤ fft_size / 2 := by
  simp only [freq_range_to_bin_range]
  split_ifs <;> constructor <;> omega

/-- Witness for C1 at the configured size 2048, 44100 Hz, band 20–120 Hz. -/
theorem c1_bin_range_safe_witness :
    (freq_range_to_bin_range ℚ 2048 44100 20 120).1 <
      (freq_range_to_bin_range ℚ 2048 44100 20 120).2 ∧
    (freq_range_to_bin_range ℚ 2048 44100 20 120).2 ≤ 2048 / 2 :=
  c1_bin_range_safe ℚ 2048 44100 20 120 (by norm_num) (by norm_num)
    (by norm_num) (by norm_num) (by norm_num) (by norm_num)

/-- C7: pushing `[1,2,3,4,5]` through the ring buffer into a freshly
constructed sliding window of capacity 3 and draining yields window
contents exactly `[3,4,5]`, oldest first — both for the zero-seeded
deque `start` actually builds and for an empty deque, and the copied-out
window agrees. -/
theorem c7_sliding_window_fifo :
    drainAll 3 (freshWindow 3) [1, 2, 3, 4, 5] = [3, 4, 5] ∧
    drainAll 3 ([] : List ℚ) [1, 2, 3, 4, 5] = [3, 4, 5] ∧
    readWindow (0 : ℚ) 3 (freshWindow 3) [1, 2, 3, 4, 5] = [3, 4, 5] := by
  refine ⟨by decide, by decide, by decide⟩

/-- C10: `RingSource::next` is total — it always yields `Some`; on an
empty audio ring buffer it yields `Some 0.0` (silence) and best-effort
forwards that zero to the visualization buffer. -/
theorem c10_ringsource_total (r : RingSource) :
    (r.next.1).isSome = true ∧
    (r.consumer = [] → r.next.1 = some 0 ∧
      (r.next.2).viz =
        (if r.viz.length < r.vizCap then r.viz ++ [0] else r.viz)) := by
  refine ⟨rfl, fun h => ⟨?_, ?_⟩⟩ <;> simp [RingSource.next, h]

/-- Witness for C10 on a concrete empty-buffer source. -/
theorem c10_ringsource_total_witness :
    (RingSource.next ⟨[], [], 2⟩).1 = some 0 :=
  ((c10_ringsource_total ⟨[], [], 2⟩).2 rfl).1

/-- Unfolding of one playback-consumption step. -/
theorem RingSource.run_succ (r : RingSource) (n : ℕ) :
    r.run (n + 1) =
      ((r.consumer.headD 0) :: ((r.next.2).run n).1, ((r.next.2).run n).2) :=
  rfl

/-- C5: over any run of `next` calls, the samples appended to the
visualization buffer are exactly a subsequence (in value and order) of
the samples yielded to the audio output — each successful push forwards
precisely the sample being played. -/
theorem c5_viz_copies_playback (r : RingSource) (n : ℕ) :
    ∃ fwd : List ℚ,
      ((r.run n).2).viz = r.viz ++ fwd ∧ fwd.Sublist (r.run n).1 := by
  induction n generalizing r with
  | zero => exact ⟨[], by simp [RingSource.run], by simp [RingSource.run]⟩
  | succ n ih =>
    obtain ⟨f, hf, hsub⟩ := ih r.next.2
    by_cases hc : r.viz.length < r.vizCap
    · have hviz : (r.next.2).viz = r.viz ++ [r.consumer.headD 0] := by
        simp [RingSource.next, hc]
      refine ⟨r.consumer.headD 0 :: f, ?_, ?_⟩
      · rw [RingSource.run_succ]
        dsimp only
        rw [hf, hviz, List.append_assoc]
        rfl
      · rw [RingSource.run_succ]
        exact List.Sublist.cons₂ _ hsub
    · have hviz : (r.next.2).viz = r.viz := by
        simp [RingSource.next, hc]
      refine ⟨f, ?_, ?_⟩
      · rw [RingSource.run_succ]
        dsimp only
        rw [hf, hviz]
      · rw [RingSource.run_succ]
        exact List.Sublist.cons _ hsub

/-- One `push_back`/conditional-`pop_front` step keeps the deque within
the cap whenever it starts within the cap. -/
theorem pushCap_length_le {α : Type} (size : ℕ) (w : List α) (s : α)
    (h : w.length ≤ size) : (pushCap size w s).length ≤ size := by
  simp only [pushCap]
  split <;> simp_all

/-- The drain loop keeps the deque within the cap. -/
theorem drainAll_length_le {α : Type} (size : ℕ) (pending : List α) :
    ∀ w : List α, w.length ≤ size → (drainAll size w pending).length ≤ size := by
  induction pending with
  | nil => intro w h; simpa [drainAll] using h
  | cons x xs ih =>
    intro w h
    simpa [drainAll] using ih (pushCap size w x) (pushCap_length_le size w x h)

/-- `read_window` produces exactly `size` samples whenever the deque
held at most `size` samples when the call began. -/
theorem readWindow_length {α : Type} (zero : α) (size : ℕ) (w pending : List α)
    (h : w.length ≤ size) : (readWindow zero size w pending).length = size := by
  have hd := drainAll_length_le size pending w h
  simp only [readWindow, List.length_append, List.length_replicate]
  omega

/-- C3 counterexample: the claim fails for a size argument smaller than
the `fft_size` the adapter was started with.  An adapter started with
`fft_size = 2` holds a two-element deque; `read_window` with `size = 1`
copies both elements out and the result has length 2, not 1. -/
theorem c3_counterexample_size_mismatch :
    (readWindow (0 : ℚ) 1 (freshWindow 2) []).length ≠ 1 := by
  decide

/-- C3 (amended): `read_window` leaves exactly `size` samples whenever
the deque holds at most `size` samples at the call — in particular for
`size` equal to the start-time `fft_size`, which is how the program
always calls it; and `window_at_time` returns normally with exactly `n`
samples whenever the loaded file holds at least one sample. -/
theorem c3_fill_window_exact_size :
    (∀ (size : ℕ) (w pending : List ℚ), w.length ≤ size →
      (readWindow 0 size w pending).length = size) ∧
    (∀ (a : AudioData) (t : ℚ) (n : ℕ), a.samples_mono ≠ [] →
      ∃ out, window_at_time a t n = some out ∧ out.length = n) := by
  refine ⟨fun size w pending h => readWindow_length 0 size w pending h,
    fun a t n h => ?_⟩
  by_cases hn : n = 0
  · subst hn
    exact ⟨[], by simp [window_at_time], rfl⟩
  · have hlen : ¬ ((a.samples_mono.length : ℤ) = 0) := by
      simp [Int.natCast_eq_zero, List.length_eq_zero, h]
    simp only [window_at_time, if_neg hn, if_neg hlen]
    exact ⟨_, rfl, by simp⟩

/-- Witness for C3 (amended): a start-size deque and a one-sample file. -/
theorem c3_fill_window_exact_size_witness :
    (readWindow (0 : ℚ) 2 (freshWindow 2) [7]).length = 2 ∧
    ∃ out, window_at_time ⟨4, [1/2], 1/4⟩ 0 3 = some out ∧ out.length = 3 :=
  ⟨c3_fill_window_exact_size.1 2 (freshWindow 2) [7] (by decide),
   c3_fill_window_exact_size.2 ⟨4, [1/2], 1/4⟩ 0 3 (by decide)⟩

/-- C4: the claim is the intent (the 0.0001 s duration floor exists
precisely to make degenerate/empty files safe), but the code still
panics on a file with zero samples: the index wrap `rem_euclid(len)`
divides by `len = 0` on the first loop iteration.  Evaluating the model
at an empty `AudioData` with `t = 0`, `n = 2048` hits the panic
(`none`). -/
theorem c4_empty_file_window_panics :
    window_at_time ⟨44100, [], 0⟩ 0 2048 = none := by
  decide

/-- C9: `load_wav` rejects floating-point sample formats, more than two
channels and bit depths other than 16 with a descriptive error and no
partial `AudioData`; it accepts exactly integer-format 16-bit mono or
stereo files, returning the scaled, frame-downmixed mono samples. -/
theorem c9_load_wav_format_gate (spec : WavSpec) (samples : List ℤ) :
    (spec.sample_format = SampleFormat.float →
      ∃ msg, load_wav spec samples = Except.error msg) ∧
    (2 < spec.channels → ∃ msg, load_wav spec samples = Except.error msg) ∧
    (spec.bits_per_sample ≠ 16 →
      ∃ msg, load_wav spec samples = Except.error msg) ∧
    (∀ d, load_wav spec samples = Except.ok d →
      spec.sample_format = SampleFormat.int ∧
      (spec.channels = 1 ∨ spec.channels = 2) ∧
      spec.bits_per_sample = 16) ∧
    (spec.sample_format = SampleFormat.int →
      (spec.channels = 1 ∨ spec.channels = 2) → spec.bits_per_sample = 16 →
      load_wav spec samples = Except.ok
        ⟨spec.sample_rate,
         (framesFold spec.channels (samples.map (fun s => (s : ℚ) / 32767))).1,
         (((framesFold spec.channels
             (samples.map (fun s => (s : ℚ) / 32767))).1.length : ℚ)
           / (spec.sample_rate : ℚ))⟩) := by
  unfold load_wav
  split_ifs with h1 h2 h3
  · refine ⟨fun _ => ⟨_, rfl⟩, fun _ => ⟨_, rfl⟩, fun _ => ⟨_, rfl⟩, ?_, ?_⟩
    · intro d hd
      simp at hd
    · intro hint _ _
      exact absurd hint h1
  · refine ⟨fun _ => ⟨_, rfl⟩, fun _ => ⟨_, rfl⟩, fun _ => ⟨_, rfl⟩, ?_, ?_⟩
    · intro d hd
      simp at hd
    · intro _ hch _
      rcases hch with h | h <;> simp_all
  · refine ⟨fun _ => ⟨_, rfl⟩, fun _ => ⟨_, rfl⟩, fun _ => ⟨_, rfl⟩, ?_, ?_⟩
    · intro d hd
      simp at hd
    · intro _ _ hb
      exact absurd hb h3
  · refine ⟨?_, ?_, fun hb => absurd (not_not.mp h3) hb,
      fun d _ => ⟨not_not.mp h1, ?_, not_not.mp h3⟩, fun _ _ _ => rfl⟩
    · intro hf
      rw [not_not.mp h1] at hf
      exact SampleFormat.noConfusion hf
    · intro hch
      rw [not_and_or, not_not, not_not] at h2
      rcases h2 with h | h <;> omega
    · rw [not_and_or, not_not, not_not] at h2
      exact h2

/-- Witness for C9: an accepted 16-bit mono PCM file decodes to `ok`. -/
theorem c9_load_wav_format_gate_witness :
    load_wav ⟨SampleFormat.int, 1, 16, 2⟩ [32767, -32767] = Except.ok
      ⟨2, (framesFold 1 (([32767, -32767] : List ℤ).map
            (fun s => (s : ℚ) / 32767))).1,
        (((framesFold 1 (([32767, -32767] : List ℤ).map
            (fun s => (s : ℚ) / 32767))).1.length : ℚ) / ((2 : ℕ) : ℚ))⟩ :=
  (c9_load_wav_format_gate ⟨SampleFormat.int, 1, 16, 2⟩ [32767, -32767]).2.2.2.2
    rfl (Or.inl rfl) rfl

/-- Draining `xs` into a deque holding `m` leading zeros followed by
`ys`, with the deque exactly at the cap, evicts one leading zero per
arriving sample. -/
theorem drainAll_replicate_zero {α : Type} (z : α) (size : ℕ) (xs : List α) :
    ∀ (m : ℕ) (ys : List α), ys.length + m = size → xs.length ≤ m →
      drainAll size (List.replicate m z ++ ys) xs =
        List.replicate (m - xs.length) z ++ (ys ++ xs) := by
  induction xs with
  | nil => intro m ys hsize hlen; simp [drainAll]
  | cons x xs ih =>
    intro m ys hsize hlen
    obtain ⟨m', rfl⟩ : ∃ m', m = m' + 1 := ⟨m - 1, by simp at hlen; omega⟩
    have hpush : pushCap size (List.replicate (m' + 1) z ++ ys) x
        = List.replicate m' z ++ (ys ++ [x]) := by
      simp only [pushCap]
      rw [if_pos (by simp; omega)]
      simp [List.replicate_succ, List.append_assoc]
    calc drainAll size (List.replicate (m' + 1) z ++ ys) (x :: xs)
        = drainAll size (pushCap size (List.replicate (m' + 1) z ++ ys) x) xs := by
          simp [drainAll]
      _ = drainAll size (List.replicate m' z ++ (ys ++ [x])) xs := by rw [hpush]
      _ = List.replicate (m' - xs.length) z ++ ((ys ++ [x]) ++ xs) :=
          ih m' (ys ++ [x]) (by simp at hsize ⊢; omega) (by simp at hlen; omega)
      _ = List.replicate (m' + 1 - (x :: xs).length) z ++ (ys ++ x :: xs) := by
          simp [List.append_assoc]

/-- C8: reading a window from a freshly started ring-buffer adapter
(mic or URL stream, whose `start` seeds the deque with `fft_size`
zeros) after `xs` real samples have arrived (`xs.length ≤ size`, with
`size` the start-time `fft_size`) yields the real samples in the most
recent (rightmost) positions, zero-padded on the left; in particular
with no samples at all the window is entirely zeros. -/
theorem c8_fresh_window_left_zero_padded (size : ℕ) (xs : List ℚ)
    (h : xs.length ≤ size) :
    readWindow 0 size (freshWindow size) xs =
      List.replicate (size - xs.length) 0 ++ xs := by
  have hdrain := drainAll_replicate_zero (0 : ℚ) size xs size [] (by simp) h
  simp only [List.append_nil, List.nil_append] at hdrain
  simp only [readWindow, freshWindow, hdrain]
  have hlen : (List.replicate (size - xs.length) (0 : ℚ) ++ xs).length = size := by
    simp
    omega
  rw [hlen]
  simp

/-- Witness for C8: a capacity-3 adapter that has received two samples. -/
theorem c8_fresh_window_left_zero_padded_witness :
    ([1, 2] : List ℚ).length ≤ 3 ∧
    readWindow (0 : ℚ) 3 (freshWindow 3) [1, 2] =
      List.replicate (3 - ([1, 2] : List ℚ).length) 0 ++ [1, 2] :=
  ⟨by decide, c8_fresh_window_left_zero_padded 3 [1, 2] (by decide)⟩

/-- `getD` with default 0 on a list of non-negatives is non-negative. -/
theorem list_getD_nonneg {l : List ℝ} (i : ℕ) (h : ∀ x ∈ l, 0 ≤ x) :
    0 ≤ l.getD i 0 := by
  rcases Nat.lt_or_ge i l.length with hi | hi
  · rw [List.getD_eq_getElem _ _ hi]
    exact h _ (List.getElem_mem hi)
  · rw [List.getD_eq_default _ _ hi]

/-- The sum/count/average/sqrt pattern never yields a negative value. -/
theorem binAvgSqrt_nonneg (mags : ℕ → ℝ) (p : ℕ × ℕ) : 0 ≤ binAvgSqrt mags p :=
  Real.sqrt_nonneg _

/-- One exponential-smoothing update `acc + α * (raw - acc)` stays
non-negative for `0 ≤ acc`, `0 ≤ raw`, `α ∈ [0, 1]`. -/
theorem smooth_step_nonneg {s b α : ℝ} (hs : 0 ≤ s) (hb : 0 ≤ b)
    (h0 : 0 ≤ α) (h1 : α ≤ 1) : 0 ≤ s + α * (b - s) := by
  nlinarith

/-- Every band value produced by the band loop is non-negative. -/
theorem bandValues_nonneg (a : Analyzer) (mags : ℕ → ℝ) (sr : ℕ) :
    ∀ x ∈ a.bandValues mags sr, 0 ≤ x := by
  intro x hx
  simp only [Analyzer.bandValues, List.mem_map] at hx
  obtain ⟨b, _, rfl⟩ := hx
  exact binAvgSqrt_nonneg _ _

/-- C2: for an input window of the configured transform size, `analyze`
returns a band vector of exactly `bar_count` elements, every band value
non-negative, and non-negative bass scalars (the real-valued model makes
finiteness automatic), given the analyzer invariant that its accumulators
are non-negative and its smoothing coefficients lie in `[0, 1]` — both
established at construction and preserved by every call. -/
theorem c2_analyze_shape_nonneg (a : Analyzer) (window : List ℝ) (sr : ℕ)
    (_hw : window.length = a.fft_size)
    (hsb : ∀ x ∈ a.smoothed_bands, 0 ≤ x)
    (hbf : 0 ≤ a.bass_fast) (hbs : 0 ≤ a.bass_smooth)
    (h1 : 0 ≤ a.alpha_bands) (h2 : a.alpha_bands ≤ 1)
    (h3 : 0 ≤ a.alpha_bass_fast) (h4 : a.alpha_bass_fast ≤ 1)
    (h5 : 0 ≤ a.alpha_bass_slow) (h6 : a.alpha_bass_slow ≤ 1) :
    ((a.analyze window sr).1.bands.length = a.bars) ∧
    (∀ x ∈ (a.analyze window sr).1.bands, 0 ≤ x) ∧
    0 ≤ (a.analyze window sr).1.bass_fast ∧
    0 ≤ (a.analyze window sr).1.bass_smooth := by
  simp only [Analyzer.analyze]
  refine ⟨by simp, ?_, ?_, ?_⟩
  · intro x hx
    simp only [List.mem_map, List.mem_range] at hx
    obtain ⟨b, _, rfl⟩ := hx
    exact smooth_step_nonneg (list_getD_nonneg b hsb)
      (list_getD_nonneg b (bandValues_nonneg a _ sr)) h1 h2
  · exact smooth_step_nonneg hbf (Real.sqrt_nonneg _) h3 h4
  · exact smooth_step_nonneg hbs (Real.sqrt_nonneg _) h5 h6

/-- Witness for C2 on a freshly constructed analyzer and a zero window. -/
theorem c2_analyze_shape_nonneg_witness :
    (((Analyzer.new 44100 4 2).analyze (List.replicate 4 0) 44100).1.bands.length
      = (Analyzer.new 44100 4 2).bars) ∧
    (∀ x ∈ ((Analyzer.new 44100 4 2).analyze (List.replicate 4 0) 44100).1.bands,
      0 ≤ x) ∧
    0 ≤ ((Analyzer.new 44100 4 2).analyze (List.replicate 4 0) 44100).1.bass_fast ∧
    0 ≤ ((Analyzer.new 44100 4 2).analyze (List.replicate 4 0) 44100).1.bass_smooth :=
  c2_analyze_shape_nonneg (Analyzer.new 44100 4 2) (List.replicate 4 0) 44100
    (by simp [Analyzer.new]) (by simp [Analyzer.new]) (by simp [Analyzer.new])
    (by simp [Analyzer.new]) (by norm_num [Analyzer.new]) (by norm_num [Analyzer.new])
    (by norm_num [Analyzer.new]) (by norm_num [Analyzer.new])
    (by norm_num [Analyzer.new]) (by norm_num [Analyzer.new])

/-- An all-zero input window is annihilated by the Hann multiply, so the
transform output and every normalised magnitude are zero. -/
theorem magnitudes_replicate_zero (a : Analyzer) (i : ℕ) :
    a.magnitudes (List.replicate a.fft_size 0) i = 0 := by
  simp only [Analyzer.magnitudes]
  have hz : ∀ j, ((List.replicate a.fft_size (0 : ℝ)).getD j 0 * a.hann.getD j 0) = 0 := by
    intro j
    rcases Nat.lt_or_ge j a.fft_size with hj | hj
    · rw [List.getD_eq_getElem _ _ (by simpa using hj)]
      simp
    · rw [List.getD_eq_default _ _ (by simpa using hj)]
      simp
  have hdft : dft a.fft_size
      (fun j => (((List.replicate a.fft_size (0 : ℝ)).getD j 0 * a.hann.getD j 0 : ℝ) : ℂ)) i
      = 0 := by
    unfold dft
    refine Finset.sum_eq_zero (fun j _ => ?_)
    simp [hz j]
  rw [hdft]
  simp

/-- The sum/count/average/sqrt pattern over identically-zero magnitudes
is zero. -/
theorem binAvgSqrt_of_zero (mags : ℕ → ℝ) (h : ∀ i, mags i = 0) (p : ℕ × ℕ) :
    binAvgSqrt mags p = 0 := by
  have hs : (∑ i ∈ Finset.Ico p.1 p.2, mags i) = 0 :=
    Finset.sum_eq_zero (fun i _ => h i)
  simp only [binAvgSqrt, hs]
  split_ifs <;> simp

/-- Every band value over identically-zero magnitudes is zero. -/
theorem bandValues_of_zero (a : Analyzer) (mags : ℕ → ℝ) (h : ∀ i, mags i = 0)
    (sr : ℕ) : ∀ x ∈ a.bandValues mags sr, x = 0 := by
  intro x hx
  simp only [Analyzer.bandValues, List.mem_map] at hx
  obtain ⟨b, _, rfl⟩ := hx
  exact binAvgSqrt_of_zero mags h _

/-- `getD` with default 0 on a list of zeros is zero. -/
theorem list_getD_of_all_zero {l : List ℝ} (i : ℕ) (h : ∀ x ∈ l, x = 0) :
    l.getD i 0 = 0 := by
  rcases Nat.lt_or_ge i l.length with hi | hi
  · rw [List.getD_eq_getElem _ _ hi]
    exact h _ (List.getElem_mem hi)
  · rw [List.getD_eq_default _ _ hi]

/-- One silent analysis step scales both bass accumulators and every
smoothed band by the corresponding `1 - α`. -/
theorem silentStep_state (a : Analyzer) (sr : ℕ) :
    (a.silentStep sr).bass_fast = (1 - a.alpha_bass_fast) * a.bass_fast ∧
    (a.silentStep sr).bass_smooth = (1 - a.alpha_bass_slow) * a.bass_smooth ∧
    (a.silentStep sr).smoothed_bands = (List.range a.bars).map
      (fun b => (1 - a.alpha_bands) * a.smoothed_bands.getD b 0) := by
  have hmag := magnitudes_replicate_zero a
  have hraw : a.bass_energy_from_bins
      (a.magnitudes (List.replicate a.fft_size 0)) sr 20 120 = 0 :=
    binAvgSqrt_of_zero _ hmag _
  have hband : ∀ b, (a.bandValues
      (a.magnitudes (List.replicate a.fft_size 0)) sr).getD b 0 = 0 :=
    fun b => list_getD_of_all_zero b (bandValues_of_zero a _ hmag sr)
  refine ⟨?_, ?_, ?_⟩
  · simp only [Analyzer.silentStep, Analyzer.analyze, hraw]
    ring
  · simp only [Analyzer.silentStep, Analyzer.analyze, hraw]
    ring
  · simp only [Analyzer.silentStep, Analyzer.analyze]
    refine List.map_congr_left (fun b _ => ?_)
    rw [hband b]
    ring

/-- The silent step leaves every configuration field unchanged. -/
theorem silentStep_params (a : Analyzer) (sr : ℕ) :
    (a.silentStep sr).bars = a.bars ∧
    (a.silentStep sr).alpha_bands = a.alpha_bands ∧
    (a.silentStep sr).alpha_bass_fast = a.alpha_bass_fast ∧
    (a.silentStep sr).alpha_bass_slow = a.alpha_bass_slow :=
  ⟨rfl, rfl, rfl, rfl⟩

/-- Iterating the silent step. -/
theorem silentIter_succ (a : Analyzer) (sr k : ℕ) :
    a.silentIter sr (k + 1) = (a.silentIter sr k).silentStep sr :=
  Function.iterate_succ_apply' _ _ _

/-- Configuration fields are preserved by any number of silent steps. -/
theorem silentIter_params (a : Analyzer) (sr k : ℕ) :
    (a.silentIter sr k).bars = a.bars ∧
    (a.silentIter sr k).alpha_bands = a.alpha_bands ∧
    (a.silentIter sr k).alpha_bass_fast = a.alpha_bass_fast ∧
    (a.silentIter sr k).alpha_bass_slow = a.alpha_bass_slow := by
  induction k with
  | zero => exact ⟨rfl, rfl, rfl, rfl⟩
  | succ k ih =>
    rw [silentIter_succ]
    exact ⟨ih.1, ih.2.1, ih.2.2.1, ih.2.2.2⟩

/-- Closed form of the fast bass accumulator under repeated silence. -/
theorem silentIter_bass_fast (a : Analyzer) (sr : ℕ) (k : ℕ) :
    (a.silentIter sr k).bass_fast = (1 - a.alpha_bass_fast) ^ k * a.bass_fast := by
  induction k with
  | zero => simp [Analyzer.silentIter]
  | succ k ih =>
    rw [silentIter_succ, (silentStep_state _ sr).1,
      (silentIter_params a sr k).2.2.1, ih]
    ring

/-- Closed form of the slow bass accumulator under repeated silence. -/
theorem silentIter_bass_smooth (a : Analyzer) (sr : ℕ) (k : ℕ) :
    (a.silentIter sr k).bass_smooth = (1 - a.alpha_bass_slow) ^ k * a.bass_smooth := by
  induction k with
  | zero => simp [Analyzer.silentIter]
  | succ k ih =>
    rw [silentIter_succ, (silentStep_state _ sr).2.1,
      (silentIter_params a sr k).2.2.2, ih]
    ring

/-- Indexing a map over `List.range`. -/
theorem getD_map_range {f : ℕ → ℝ} {n j : ℕ} (h : j < n) :
    ((List.range n).map f).getD j 0 = f j := by
  rw [List.getD_eq_getElem _ _ (by simpa using h)]
  simp

/-- Closed form of each smoothed band under repeated silence. -/
theorem silentIter_smoothed_getD (a : Analyzer) (sr : ℕ) {j : ℕ}
    (hj : j < a.bars) (k : ℕ) :
    (a.silentIter sr k).smoothed_bands.getD j 0 =
      (1 - a.alpha_bands) ^ k * a.smoothed_bands.getD j 0 := by
  induction k with
  | zero => simp [Analyzer.silentIter]
  | succ k ih =>
    rw [silentIter_succ, (silentStep_state _ sr).2.2,
      getD_map_range ((silentIter_params a sr k).1 ▸ hj),
      (silentIter_params a sr k).2.1, ih]
    ring

/-- A geometric sequence `c^k * x0` with `0 ≤ c < 1`, `0 ≤ x0` is
antitone, non-negative and tends to 0. -/
theorem geom_decay (c x0 : ℝ) (hx : 0 ≤ x0) (hc0 : 0 ≤ c) (hc1 : c < 1) :
    Antitone (fun k : ℕ => c ^ k * x0) ∧ (∀ k, 0 ≤ c ^ k * x0) ∧
    Filter.Tendsto (fun k : ℕ => c ^ k * x0) Filter.atTop (nhds 0) := by
  refine ⟨antitone_nat_of_succ_le (fun k => ?_),
    fun k => mul_nonneg (pow_nonneg hc0 k) hx, ?_⟩
  · exact mul_le_mul_of_nonneg_right
      (pow_le_pow_of_le_one hc0 hc1.le (Nat.le_succ k)) hx
  · simpa using (tendsto_pow_atTop_nhds_zero_of_lt_one hc0 hc1).mul_const x0

/-- C6: starting from any non-negative analyzer smoothing state (with
the construction-time smoothing coefficients in `(0, 1)`), repeatedly
analyzing an all-zero window of the configured transform size drives
both bass accumulators and every smoothed band value monotonically
non-increasing toward 0, never negative and never diverging. -/
theorem c6_silence_decay (a : Analyzer) (sr : ℕ)
    (hbf : 0 ≤ a.bass_fast) (hbs : 0 ≤ a.bass_smooth)
    (hsb : ∀ x ∈ a.smoothed_bands, 0 ≤ x)
    (h1 : 0 < a.alpha_bands) (h2 : a.alpha_bands < 1)
    (h3 : 0 < a.alpha_bass_fast) (h4 : a.alpha_bass_fast < 1)
    (h5 : 0 < a.alpha_bass_slow) (h6 : a.alpha_bass_slow < 1) :
    (Antitone (fun k => (a.silentIter sr k).bass_fast) ∧
      (∀ k, 0 ≤ (a.silentIter sr k).bass_fast) ∧
      Filter.Tendsto (fun k => (a.silentIter sr k).bass_fast)
        Filter.atTop (nhds 0)) ∧
    (Antitone (fun k => (a.silentIter sr k).bass_smooth) ∧
      (∀ k, 0 ≤ (a.silentIter sr k).bass_smooth) ∧
      Filter.Tendsto (fun k => (a.silentIter sr k).bass_smooth)
        Filter.atTop (nhds 0)) ∧
    (∀ j, j < a.bars →
      Antitone (fun k => (a.silentIter sr k).smoothed_bands.getD j 0) ∧
      (∀ k, 0 ≤ (a.silentIter sr k).smoothed_bands.getD j 0) ∧
      Filter.Tendsto (fun k => (a.silentIter sr k).smoothed_bands.getD j 0)
        Filter.atTop (nhds 0)) := by
  have hfun_f : (fun k => (a.silentIter sr k).bass_fast) =
      fun k : ℕ => (1 - a.alpha_bass_fast) ^ k * a.bass_fast :=
    funext (silentIter_bass_fast a sr)
  have hfun_s : (fun k => (a.silentIter sr k).bass_smooth) =
      fun k : ℕ => (1 - a.alpha_bass_slow) ^ k * a.bass_smooth :=
    funext (silentIter_bass_smooth a sr)
  have hgf := geom_decay (1 - a.alpha_bass_fast) a.bass_fast hbf
    (by linarith) (by linarith)
  have hgs := geom_decay (1 - a.alpha_bass_slow) a.bass_smooth hbs
    (by linarith) (by linarith)
  refine ⟨⟨?_, ?_, ?_⟩, ⟨?_, ?_, ?_⟩, fun j hj => ?_⟩
  · rw [hfun_f]; exact hgf.1
  · intro k
    rw [silentIter_bass_fast]
    exact hgf.2.1 k
  · rw [hfun_f]; exact hgf.2.2
  · rw [hfun_s]; exact hgs.1
  · intro k
    rw [silentIter_bass_smooth]
    exact hgs.2.1 k
  · rw [hfun_s]; exact hgs.2.2
  · have hfun_b : (fun k => (a.silentIter sr k).smoothed_bands.getD j 0) =
        fun k : ℕ => (1 - a.alpha_bands) ^ k * a.smoothed_bands.getD j 0 :=
      funext (silentIter_smoothed_getD a sr hj)
    have hgb := geom_decay (1 - a.alpha_bands) (a.smoothed_bands.getD j 0)
      (list_getD_nonneg j hsb) (by linarith) (by linarith)
    refine ⟨hfun_b ▸ hgb.1, fun k => ?_, hfun_b ▸ hgb.2.2⟩
    rw [silentIter_smoothed_getD a sr hj]
    exact hgb.2.1 k

/-- Witness for C6 on a freshly constructed analyzer. -/
theorem c6_silence_decay_witness :
    Antitone (fun k => ((Analyzer.new 44100 4 2).silentIter 44100 k).bass_fast) ∧
    (∀ k, 0 ≤ ((Analyzer.new 44100 4 2).silentIter 44100 k).bass_fast) ∧
    Filter.Tendsto (fun k => ((Analyzer.new 44100 4 2).silentIter 44100 k).bass_fast)
      Filter.atTop (nhds 0) :=
  (c6_silence_decay (Analyzer.new 44100 4 2) 44100
    (by simp [Analyzer.new]) (by simp [Analyzer.new]) (by simp [Analyzer.new])
    (by norm_num [Analyzer.new]) (by norm_num [Analyzer.new])
    (by norm_num [Analyzer.new]) (by norm_num [Analyzer.new])
    (by norm_num [Analyzer.new]) (by norm_num [Analyzer.new])).1

end AudioViz
